/-
  Verification of the layout-reconstruction and table-detection engine of the
  mon-pdf-fr backend (src/pdf2docx_advanced.py and src/pdf2docx_custom.py).

  Shallow embedding conventions:
  * page-space coordinates and font sizes (Python floats) are modelled as ℚ;
  * Python str.strip() is modelled by pyStrip (drop whitespace at both ends);
  * Python's stable sorted(key=...) is modelled by stableSort with the strict
    comparator of the sort key (any stable sort by the same key produces the
    same list, and stableSort is a stable insertion sort);
  * Python round(x, 1) is modelled by round1 using Mathlib's round (half-up);
    Python rounds half to even on binary floats; the two agree away from
    .05-ties, where every input considered here lies.
-/
import Mathlib

/-- Characters treated as whitespace by Python `str.strip()`. -/
def isPySpace (c : Char) : Bool := c.isWhitespace

/-- Strip whitespace from both ends of a character list. -/
def stripChars (cs : List Char) : List Char :=
  ((cs.dropWhile isPySpace).reverse.dropWhile isPySpace).reverse

/-- Model of Python `str.strip()`. -/
def pyStrip (s : String) : String := String.mk (stripChars s.data)

/-- Insert `a` into a list, before the first element `b` with `lt a b`:
the position a stable sort gives to a newly arriving element. -/
def stableInsert (lt : α → α → Bool) (a : α) : List α → List α
  | [] => [a]
  | b :: bs => if lt a b then a :: b :: bs else b :: stableInsert lt a bs

/-- Stable sort by the strict comparator `lt`; models Python's stable
`sorted(...)` / `list.sort(...)` with `lt` the strict order of the sort key. -/
def stableSort (lt : α → α → Bool) (l : List α) : List α :=
  l.foldl (fun acc a => stableInsert lt a acc) []

/-! ## Data model of src/pdf2docx_advanced.py -/

/-- `TextSpan` (pdf2docx_advanced.py): a span of text with consistent formatting. -/
structure TextSpan where
  text : String
  x : ℚ
  y : ℚ
  width : ℚ
  height : ℚ
  font_name : String
  font_size : ℚ
  is_bold : Bool
  is_italic : Bool
  color : ℕ × ℕ × ℕ
deriving DecidableEq, Inhabited

/-- `TextLine` (pdf2docx_advanced.py): a line of text made up of spans. -/
structure TextLine where
  spans : List TextSpan := []
  y : ℚ := 0
deriving DecidableEq, Inhabited

/-- `TextLine.text` property: concatenation of the span texts. -/
def TextLine.text (l : TextLine) : String := String.join (l.spans.map (·.text))

/-- `TableStructure` (pdf2docx_advanced.py): detected table structure. -/
structure TableStructure where
  headers : List String
  rows : List (List String)
  y_start : ℚ
  y_end : ℚ
  has_header_bg : Bool := false
deriving DecidableEq, Inhabited

/-! ## TableDetector -/

/-- `TableDetector._is_table_header`: at least 3 spans overall, all bold, and
some horizontal gap over 5 units between x-sorted consecutive spans. -/
def is_table_header (lines : List TextLine) : Bool :=
  if lines.isEmpty then false
  else
    let all_spans := (lines.map (·.spans)).flatten
    if all_spans.isEmpty then false
    else
      let all_bold := all_spans.all (·.is_bold)
      if all_spans.length < 3 then false
      else if 2 ≤ all_spans.length then
        let sorted_spans := stableSort (fun s t => decide (s.x < t.x)) all_spans
        let gaps := (sorted_spans.zip sorted_spans.tail).map
          (fun p => p.2.x - (p.1.x + p.1.width))
        let has_gaps := gaps.any (fun gap => decide (gap > 5))
        all_bold && has_gaps
      else all_bold

/-- `TableDetector._is_table_row`: some span within 30 units of a column anchor.
(`num_cols` is an argument of the source function, unused by its body.) -/
def is_table_row (line : TextLine) (col_positions : List ℚ) (num_cols : ℕ) : Bool :=
  if line.spans.isEmpty then false
  else line.spans.any (fun span =>
    col_positions.any (fun col_x => decide (|span.x - col_x| < 30)))

/-- Inner loop of `_extract_row_cells` over `enumerate(col_positions)`:
state is `(col_idx, min_dist)`, updated when `dist < min_dist`; `min_dist`
starts at infinity, modelled as `none`. -/
def nearestColAux (x : ℚ) : ℕ → ℕ → Option ℚ → List ℚ → ℕ
  | _, best, _, [] => best
  | i, _, none, c :: cs => nearestColAux x (i + 1) i (some |x - c|) cs
  | i, best, some d, c :: cs =>
      if |x - c| < d then nearestColAux x (i + 1) i (some |x - c|) cs
      else nearestColAux x (i + 1) best (some d) cs

/-- Index of the column anchor nearest to `x` (first index on ties). -/
def nearestColIdx (col_positions : List ℚ) (x : ℚ) : ℕ :=
  nearestColAux x 0 0 none col_positions

/-- `TableDetector._extract_row_cells`: assign each span to the nearest column,
space-joining multiple spans landing in the same cell. -/
def extract_row_cells (line : TextLine) (col_positions : List ℚ) (num_cols : ℕ) :
    List String :=
  line.spans.foldl
    (fun cells span =>
      let col_idx := nearestColIdx col_positions span.x
      let cell := cells.getD col_idx ""
      let cell := if cell ≠ "" then cell ++ " " else cell
      cells.set col_idx (cell ++ pyStrip span.text))
    (List.replicate num_cols "")

/-- The continuation merge of `_extract_table`: Python runs
`for i in range(num_cols)` updating `rows[-1][i]` in place from `row[i]`;
at every executed call both lists have length `num_cols` (the guard checks
`len(row) == num_cols` and every stored row has that length), so the loop is
the pointwise merge encoded here. -/
def foldContinuation : List String → List String → List String
  | ls, [] => ls
  | [], _ :: _ => []
  | l :: ls, r :: rs =>
      (if pyStrip r ≠ "" then (if l ≠ "" then l ++ " " ++ r else r) else l)
        :: foldContinuation ls rs

/-- Number of cells of a row that are non-empty after stripping
(Python `sum(1 for cell in row if cell.strip())`). -/
def nonEmptyCellCount (row : List String) : ℕ :=
  row.countP (fun cell => decide (pyStrip cell ≠ ""))

/-- Total number of non-empty cells over a list of rows. -/
def nonEmptyTotal (rows : List (List String)) : ℕ :=
  (rows.map nonEmptyCellCount).sum

/-- The per-accepted-row body of `_extract_table`'s row loop: extract the
cells, then either fold them into the previous row (continuation) or append
them as a new row. -/
def processRow (col_positions : List ℚ) (num_cols : ℕ)
    (rows : List (List String)) (merged_line : TextLine) : List (List String) :=
  let row := extract_row_cells merged_line col_positions num_cols
  if rows ≠ [] ∧ row.length = num_cols ∧ nonEmptyCellCount row = 1 then
    rows.dropLast ++ [foldContinuation (rows.getLastD []) row]
  else rows ++ [row]

/-- Row loop of `_extract_table` over the grouped rows: merge each group's
lines, stop at the first non-member row, otherwise process the row and move
`table_y_end` to the row's y. -/
def buildRowsAux (col_positions : List ℚ) (num_cols : ℕ) :
    List (ℚ × List TextLine) → List (List String) → ℚ → List (List String) × ℚ
  | [], rows, y_end => (rows, y_end)
  | (row_y, row_lines) :: rest, rows, y_end =>
      let merged_line : TextLine := ⟨(row_lines.map (·.spans)).flatten, row_y⟩
      if is_table_row merged_line col_positions num_cols then
        buildRowsAux col_positions num_cols rest
          (processRow col_positions num_cols rows merged_line) row_y
      else (rows, y_end)

/-- Row-grouping loop of `_extract_table`: cluster consecutive y-keys within
2 units of the current row's y; the cutoff check `y - header_y > 200` runs at
the end of an iteration (and is skipped, like in the source, when the key has
no lines), after the key's lines have already been taken into the state. -/
def groupRowsAux (header_y : ℚ) (y_groups : ℚ → List TextLine) :
    List ℚ → Option ℚ → List TextLine → List (ℚ × List TextLine) →
    List (ℚ × List TextLine)
  | [], cur_y, cur_lines, row_groups =>
      if cur_lines.isEmpty then row_groups
      else row_groups ++ [(cur_y.getD 0, cur_lines)]
  | y :: rest, none, cur_lines, row_groups =>
      if (y_groups y).isEmpty then
        groupRowsAux header_y y_groups rest none cur_lines row_groups
      else
        if y - header_y > 200 then
          if (cur_lines ++ y_groups y).isEmpty then row_groups
          else row_groups ++ [(y, cur_lines ++ y_groups y)]
        else
          groupRowsAux header_y y_groups rest (some y) (cur_lines ++ y_groups y) row_groups
  | y :: rest, some ry, cur_lines, row_groups =>
      if (y_groups y).isEmpty then
        groupRowsAux header_y y_groups rest (some ry) cur_lines row_groups
      else
        if |y - ry| ≤ 2 then
          if y - header_y > 200 then
            if (cur_lines ++ y_groups y).isEmpty then row_groups
            else row_groups ++ [(ry, cur_lines ++ y_groups y)]
          else
            groupRowsAux header_y y_groups rest (some ry) (cur_lines ++ y_groups y) row_groups
        else
          if y - header_y > 200 then
            if (y_groups y).isEmpty then
              (if cur_lines.isEmpty then row_groups else row_groups ++ [(ry, cur_lines)])
            else
              (if cur_lines.isEmpty then row_groups else row_groups ++ [(ry, cur_lines)]) ++
                [(y, y_groups y)]
          else
            groupRowsAux header_y y_groups rest (some y) (y_groups y)
              (if cur_lines.isEmpty then row_groups else row_groups ++ [(ry, cur_lines)])

/-- Header spans of `_extract_table`: all spans of the header lines, x-sorted. -/
def headerSpansOf (header_lines : List TextLine) : List TextSpan :=
  stableSort (fun s t => decide (s.x < t.x)) ((header_lines.map (·.spans)).flatten)

/-- The row groups `_extract_table` scans, given the y-keys at and after the
header. -/
def rowGroupsOf (y_keys : List ℚ) (y_groups : ℚ → List TextLine) :
    List (ℚ × List TextLine) :=
  match y_keys with
  | [] => []
  | header_y :: rest => groupRowsAux header_y y_groups rest none [] []

/-- The data rows `_extract_table` accepts (continuations already folded). -/
def tableRowsOf (y_keys : List ℚ) (y_groups : ℚ → List TextLine) :
    List (List String) :=
  match y_keys with
  | [] => []
  | header_y :: rest =>
      let all_header_spans := headerSpansOf (y_groups header_y)
      let headers := all_header_spans.map (fun s => pyStrip s.text)
      let num_cols := headers.length
      let col_positions := all_header_spans.map (·.x)
      (buildRowsAux col_positions num_cols
        (groupRowsAux header_y y_groups rest none [] []) [] header_y).1

/-- `TableDetector._extract_table`: extract a table structure starting at the
first y-key (the header); returns `none` when no data row is accepted. -/
def extract_table (y_keys : List ℚ) (y_groups : ℚ → List TextLine) :
    Option TableStructure :=
  match y_keys with
  | [] => none
  | header_y :: rest =>
      let all_header_spans := headerSpansOf (y_groups header_y)
      let headers := all_header_spans.map (fun s => pyStrip s.text)
      let num_cols := headers.length
      let col_positions := all_header_spans.map (·.x)
      let built := buildRowsAux col_positions num_cols
        (groupRowsAux header_y y_groups rest none [] []) [] header_y
      if built.1.isEmpty then none
      else some ⟨headers, built.1, header_y, built.2, false⟩

/-- Python `round(x, 1)` (see the header comment about the half-case). -/
def round1 (q : ℚ) : ℚ := (round (10 * q) : ℤ) / 10

/-- The `y_groups` defaultdict of `detect_tables`: lines keyed by rounded y,
in original order. -/
def yGroupsOf (text_lines : List TextLine) : ℚ → List TextLine :=
  fun key => text_lines.filter (fun line => decide (round1 line.y = key))

/-- The distinct rounded y-keys in first-insertion order (Python dict order). -/
def yKeysOf (text_lines : List TextLine) : List ℚ :=
  (text_lines.map (fun line => round1 line.y)).foldl
    (fun acc k => if k ∈ acc then acc else acc ++ [k]) []

/-- `sorted_ys` of `detect_tables`. -/
def sortedYsOf (text_lines : List TextLine) : List ℚ :=
  stableSort (fun a b => decide (a < b)) (yKeysOf text_lines)

/-- Scanning loop of `detect_tables`: at each y-key, test the header pattern;
on a successful extraction skip `len(table.rows) + 1` keys. -/
def detectTablesAux (y_groups : ℚ → List TextLine) : List ℚ → List TableStructure
  | [] => []
  | y :: rest =>
      if is_table_header (y_groups y) then
        match extract_table (y :: rest) y_groups with
        | some table =>
            table :: detectTablesAux y_groups
              (List.drop (table.rows.length + 1) (y :: rest))
        | none => detectTablesAux y_groups rest
      else detectTablesAux y_groups rest
termination_by l => l.length
decreasing_by
  · simp only [List.length_drop, List.length_cons]
    omega
  · simp
  · simp

/-- `TableDetector.detect_tables`. -/
def detect_tables (text_lines : List TextLine) : List TableStructure :=
  detectTablesAux (yGroupsOf text_lines) (sortedYsOf text_lines)

/-! ## Flow assembly of `AdvancedPDF2DOCXConverter.convert` (per page) -/

/-- Output elements the per-page loop of `convert` hands to the generator
(`add_table` / `add_text_line`); images are never emitted by this converter. -/
inductive FlowElem where
  | table (t : TableStructure)
  | textLine (line : TextLine)
deriving DecidableEq

def FlowElem.isTable : FlowElem → Bool
  | .table _ => true
  | .textLine _ => false

def FlowElem.textOf : FlowElem → Option TextLine
  | .table _ => none
  | .textLine l => some l

/-- `table_y_ranges` of `convert`. -/
def tableRanges (tables : List TableStructure) : List (ℚ × ℚ) :=
  tables.map (fun t => (t.y_start, t.y_end))

/-- The `for idx, (y_start, y_end) in enumerate(table_y_ranges)` search with
`break` on the first range containing `y`. -/
def firstIdxAux (y : ℚ) : ℕ → List (ℚ × ℚ) → Option ℕ
  | _, [] => none
  | i, r :: rs =>
      if r.1 ≤ y ∧ y ≤ r.2 then some i else firstIdxAux y (i + 1) rs

/-- Index of the first table range containing `y`, if any. -/
def firstTableIdx (ranges : List (ℚ × ℚ)) (y : ℚ) : Option ℕ :=
  firstIdxAux y 0 ranges

/-- One iteration of the per-line loop of `convert`: state is
(`tables_added`, output so far). -/
def flowStep (tables : List TableStructure) (st : List ℕ × List FlowElem)
    (line : TextLine) : List ℕ × List FlowElem :=
  match firstTableIdx (tableRanges tables) line.y with
  | none => (st.1, st.2 ++ [FlowElem.textLine line])
  | some idx =>
      if idx ∉ st.1 then
        if |line.y - (tables.getD idx default).y_start| ≤ 1 then
          (idx :: st.1, st.2 ++ [FlowElem.table (tables.getD idx default)])
        else st
      else st

/-- The per-page element stream produced by `convert`'s line loop for a given
table list. -/
def flowPage (tables : List TableStructure) (text_lines : List TextLine) :
    List FlowElem :=
  (text_lines.foldl (flowStep tables) ([], [])).2

/-- Full per-page flow of `AdvancedPDF2DOCXConverter.convert`: detect tables,
then run the line loop. -/
def convertPageFlow (text_lines : List TextLine) : List FlowElem :=
  flowPage (detect_tables text_lines) text_lines

/-- A line triggers emission of table `idx` when the first range containing
its y is table `idx`'s and its y is within 1 unit of that table's `y_start`. -/
def triggersTable (tables : List TableStructure) (line : TextLine) (idx : ℕ) : Prop :=
  firstTableIdx (tableRanges tables) line.y = some idx ∧
    |line.y - (tables.getD idx default).y_start| ≤ 1

instance (tables : List TableStructure) (line : TextLine) (idx : ℕ) :
    Decidable (triggersTable tables line idx) := by
  unfold triggersTable
  infer_instance

/-! ## Data model of src/pdf2docx_custom.py -/

/-- `TextBlock` (pdf2docx_custom.py): a block of text with formatting and
position. -/
structure TextBlock where
  text : String
  x : ℚ
  y : ℚ
  width : ℚ
  height : ℚ
  font_name : String
  font_size : ℚ
  font_flags : ℕ
  color : ℕ × ℕ × ℕ
  page_num : ℕ
deriving DecidableEq, Inhabited

def TextBlock.is_bold (b : TextBlock) : Bool := decide (b.font_flags.land (2 ^ 4) ≠ 0)

def TextBlock.is_italic (b : TextBlock) : Bool := decide (b.font_flags.land (2 ^ 1) ≠ 0)

def TextBlock.bottom (b : TextBlock) : ℚ := b.y + b.height

def TextBlock.right (b : TextBlock) : ℚ := b.x + b.width

/-- `ImageBlock` (pdf2docx_custom.py). -/
structure ImageBlock where
  image_data : List ℕ
  x : ℚ
  y : ℚ
  width : ℚ
  height : ℚ
  page_num : ℕ
deriving DecidableEq, Inhabited

/-- Sweep of `LayoutAnalyzer.group_into_lines`: start a new line when the
block's y differs from the current line's first block's y by more than the
tolerance. -/
def sweepLines (tolerance_y : ℚ) : List TextBlock → List TextBlock → List (List TextBlock)
  | current_line, [] => [current_line]
  | current_line, block :: rest =>
      if |block.y - (current_line.headD default).y| ≤ tolerance_y then
        sweepLines tolerance_y (current_line ++ [block]) rest
      else current_line :: sweepLines tolerance_y [block] rest

/-- `LayoutAnalyzer.group_into_lines`: sort by (y, x), sweep into lines, then
sort each line by x. -/
def group_into_lines (tolerance_y : ℚ) (blocks : List TextBlock) :
    List (List TextBlock) :=
  if blocks.isEmpty then []
  else
    (sweepLines tolerance_y
      [(stableSort (fun a b => decide (a.y < b.y ∨ (a.y = b.y ∧ a.x < b.x))) blocks).headD
        default]
      (stableSort (fun a b => decide (a.y < b.y ∨ (a.y = b.y ∧ a.x < b.x))) blocks).tail).map
      (stableSort (fun s t => decide (s.x < t.x)))

/-- Text accumulation of `merge_line_blocks`: insert a space when the gap to
the previous block exceeds 2 units. -/
def mergeTexts : Option TextBlock → List TextBlock → String
  | _, [] => ""
  | prev, block :: rest =>
      (match prev with
       | some p => if block.x - p.right > 2 then " " ++ block.text else block.text
       | none => block.text) ++ mergeTexts (some block) rest

/-- `LayoutAnalyzer.merge_line_blocks`. -/
def merge_line_blocks (line : List TextBlock) : Option TextBlock :=
  match line with
  | [] => none
  | [b] => some b
  | first :: _ :: _ =>
      let last := line.getLastD default
      let hs := line.map (·.height)
      some { text := mergeTexts none line
             x := first.x
             y := first.y
             width := last.right - first.x
             height := hs.foldl max (hs.headD 0)
             font_name := first.font_name
             font_size := first.font_size
             font_flags := first.font_flags
             color := first.color
             page_num := first.page_num }

/-- `LayoutAnalyzer.classify_heading`. -/
def classify_heading (block : TextBlock) (avg_font_size : ℚ) : ℕ :=
  if block.font_size ≥ avg_font_size * 1.5 then 1
  else if block.font_size ≥ avg_font_size * 1.3 then 2
  else if block.font_size ≥ avg_font_size * 1.15 then 3
  else 0

/-- Page-average font size used by `PDF2DOCXConverter.convert`
(`sum(...) / len(...) if text_blocks else 12`). -/
def avgFontSize (text_blocks : List TextBlock) : ℚ :=
  if text_blocks.isEmpty then 12
  else ((text_blocks.map (·.font_size)).sum) / (text_blocks.length : ℚ)

/-- Output elements of one page of `PDF2DOCXConverter.convert`, in emission
order: the merged text lines (with heading classification) are emitted first,
then every image of the page; the y-sorted combined `elements` list the source
builds is never read. -/
inductive DocElem where
  | textBlock (block : TextBlock) (heading_level : ℕ)
  | image (img : ImageBlock)
deriving DecidableEq

def DocElem.isImage : DocElem → Bool
  | .textBlock _ _ => false
  | .image _ => true

/-- Per-page emission order of `PDF2DOCXConverter.convert`. -/
def convertPageCustom (text_blocks : List TextBlock) (images : List ImageBlock) :
    List DocElem :=
  let avg_font_size := avgFontSize text_blocks
  let lines := group_into_lines 3 text_blocks
  (lines.filterMap (fun line =>
    (merge_line_blocks line).map (fun merged =>
      DocElem.textBlock merged (classify_heading merged avg_font_size))))
  ++ images.map DocElem.image

/-! ## Helper lemmas: strings -/

theorem string_data_append (a b : String) : (a ++ b).data = a.data ++ b.data := by
  cases a
  cases b
  rfl

theorem string_eq_empty_iff (s : String) : s = "" ↔ s.data = [] := by
  cases s with
  | mk data =>
      constructor
      · intro h
        have hd : (String.mk data).data = ("" : String).data := by rw [h]
        simpa using hd
      · intro h
        simp only at h
        subst h
        rfl

theorem stripChars_eq_nil_iff (cs : List Char) :
    stripChars cs = [] ↔ ∀ c ∈ cs, isPySpace c = true := by
  unfold stripChars
  rw [List.reverse_eq_nil_iff, List.dropWhile_eq_nil_iff]
  constructor
  · intro h c hc
    by_cases hmem : c ∈ List.dropWhile isPySpace cs
    · exact h c (List.mem_reverse.mpr hmem)
    · have hsplit := List.takeWhile_append_dropWhile (p := isPySpace) (l := cs)
      rw [← hsplit] at hc
      rcases List.mem_append.mp hc with h1 | h2
      · exact List.mem_takeWhile_imp h1
      · exact absurd h2 hmem
  · intro h c hc
    rw [List.mem_reverse] at hc
    exact h c ((List.dropWhile_sublist (p := isPySpace) (l := cs)).mem hc)

theorem pyStrip_eq_empty_iff (s : String) :
    pyStrip s = "" ↔ ∀ c ∈ s.data, isPySpace c = true := by
  unfold pyStrip
  rw [string_eq_empty_iff]
  exact stripChars_eq_nil_iff s.data

theorem pyStrip_append_space_ne (l r : String) (h : pyStrip r ≠ "") :
    pyStrip (l ++ " " ++ r) ≠ "" := by
  intro hc
  apply h
  rw [pyStrip_eq_empty_iff] at hc ⊢
  intro c hcr
  exact hc c (by rw [string_data_append, string_data_append]; simp [hcr])

/-! ## Helper lemmas: stable sort -/

theorem stableInsert_perm (lt : α → α → Bool) (a : α) (l : List α) :
    (stableInsert lt a l).Perm (a :: l) := by
  induction l with
  | nil => simp [stableInsert]
  | cons b bs ih =>
      unfold stableInsert
      by_cases h : lt a b = true
      · simp [h]
      · simp only [h]
        rw [if_neg (by simp [h])]
        exact (ih.cons b).trans (List.Perm.swap a b bs)

theorem stableSort_aux_perm (lt : α → α → Bool) :
    ∀ (l acc : List α), (l.foldl (fun acc a => stableInsert lt a acc) acc).Perm (acc ++ l) := by
  intro l
  induction l with
  | nil => simp
  | cons a as ih =>
      intro acc
      simp only [List.foldl_cons]
      refine (ih (stableInsert lt a acc)).trans ?_
      refine ((stableInsert_perm lt a acc).append_right as).trans ?_
      exact List.perm_middle.symm

theorem stableSort_perm (lt : α → α → Bool) (l : List α) :
    (stableSort lt l).Perm l := by
  simpa using stableSort_aux_perm lt l []

/-! ## Helper lemmas: row cells and continuation folding -/

theorem length_foldContinuation (l r : List String) :
    (foldContinuation l r).length = l.length := by
  induction l generalizing r with
  | nil =>
      cases r with
      | nil => rfl
      | cons x xs => rfl
  | cons a as ih =>
      cases r with
      | nil => rfl
      | cons x xs => simp [foldContinuation, ih]

theorem length_extract_row_cells (line : TextLine) (col_positions : List ℚ)
    (num_cols : ℕ) : (extract_row_cells line col_positions num_cols).length = num_cols := by
  unfold extract_row_cells
  have aux : ∀ (spans : List TextSpan) (cells : List String),
      (spans.foldl
        (fun cells span =>
          let col_idx := nearestColIdx col_positions span.x
          let cell := cells.getD col_idx ""
          let cell := if cell ≠ "" then cell ++ " " else cell
          cells.set col_idx (cell ++ pyStrip span.text)) cells).length = cells.length := by
    intro spans
    induction spans with
    | nil => intro cells; rfl
    | cons s ss ih =>
        intro cells
        simp only [List.foldl_cons]
        rw [ih]
        exact List.length_set ..
  rw [aux]
  exact List.length_replicate ..

theorem getLastD_eq_getLast (l : List α) (d : α) (h : l ≠ []) :
    l.getLastD d = l.getLast h := by
  rw [List.getLastD_eq_getLast?, List.getLast?_eq_getLast l h]
  rfl

theorem dropLast_concat_getLastD (l : List α) (d : α) (h : l ≠ []) :
    l.dropLast ++ [l.getLastD d] = l := by
  rw [getLastD_eq_getLast l d h]
  exact List.dropLast_append_getLast h

theorem getLastD_mem (l : List α) (d : α) (h : l ≠ []) : l.getLastD d ∈ l := by
  rw [getLastD_eq_getLast l d h]
  exact List.getLast_mem h

/-- Rows invariant: every stored row has `num_cols` entries. -/
theorem processRow_all_lengths (col_positions : List ℚ) (num_cols : ℕ)
    (rows : List (List String)) (merged_line : TextLine)
    (h : ∀ r ∈ rows, r.length = num_cols) :
    ∀ r ∈ processRow col_positions num_cols rows merged_line, r.length = num_cols := by
  unfold processRow
  by_cases hc : rows ≠ [] ∧
      (extract_row_cells merged_line col_positions num_cols).length = num_cols ∧
      nonEmptyCellCount (extract_row_cells merged_line col_positions num_cols) = 1
  · rw [if_pos hc]
    intro r hr
    rcases List.mem_append.mp hr with h1 | h2
    · exact h r (List.mem_of_mem_dropLast h1)
    · rw [List.mem_singleton.mp h2, length_foldContinuation]
      exact h _ (getLastD_mem rows [] hc.1)
  · rw [if_neg hc]
    intro r hr
    rcases List.mem_append.mp hr with h1 | h2
    · exact h r h1
    · rw [List.mem_singleton.mp h2]
      exact length_extract_row_cells ..

theorem buildRowsAux_all_lengths (col_positions : List ℚ) (num_cols : ℕ)
    (groups : List (ℚ × List TextLine)) (rows : List (List String)) (y_end : ℚ)
    (h : ∀ r ∈ rows, r.length = num_cols) :
    ∀ r ∈ (buildRowsAux col_positions num_cols groups rows y_end).1,
      r.length = num_cols := by
  induction groups generalizing rows y_end with
  | nil => exact h
  | cons g rest ih =>
      obtain ⟨row_y, row_lines⟩ := g
      unfold buildRowsAux
      by_cases hm : is_table_row ⟨(row_lines.map (·.spans)).flatten, row_y⟩
          col_positions num_cols = true
      · rw [if_pos hm]
        exact ih _ row_y (processRow_all_lengths _ _ _ _ h)
      · rw [if_neg hm]
        exact h

theorem extract_table_all_lengths (y_keys : List ℚ) (y_groups : ℚ → List TextLine)
    (t : TableStructure) (h : extract_table y_keys y_groups = some t) :
    ∀ r ∈ t.rows, r.length = t.headers.length := by
  cases y_keys with
  | nil => exact absurd h (by simp [extract_table])
  | cons header_y rest =>
      unfold extract_table at h
      simp only at h
      by_cases he : (buildRowsAux
          ((headerSpansOf (y_groups header_y)).map (·.x))
          ((headerSpansOf (y_groups header_y)).map (fun s => pyStrip s.text)).length
          (groupRowsAux header_y y_groups rest none [] []) [] header_y).1.isEmpty
      · rw [if_pos he] at h
        exact absurd h (by simp)
      · rw [if_neg he] at h
        have ht := Option.some.inj h
        subst ht
        simp only
        exact buildRowsAux_all_lengths _ _ _ _ _ (by intro r hr; simp at hr)

theorem detectTablesAux_sub (y_groups : ℚ → List TextLine) (keys : List ℚ)
    (t : TableStructure) (h : t ∈ detectTablesAux y_groups keys) :
    ∃ ks, extract_table ks y_groups = some t := by
  induction keys using detectTablesAux.induct y_groups with
  | case1 => exact absurd h (by simp [detectTablesAux])
  | case2 y rest hhd table hext ih =>
      rw [detectTablesAux, if_pos hhd, hext] at h
      rcases List.mem_cons.mp h with h1 | h2
      · exact ⟨y :: rest, by rw [hext, h1]⟩
      · exact ih h2
  | case3 y rest hhd hext ih =>
      rw [detectTablesAux, if_pos hhd, hext] at h
      exact ih h
  | case4 y rest hhd ih =>
      rw [detectTablesAux, if_neg hhd] at h
      exact ih h

/-! ## Concrete example inputs (used by witnesses and counterexamples) -/

/-- A bold span for concrete header examples. -/
def mkHeaderSpan (t : String) (x : ℚ) : TextSpan :=
  ⟨t, x, 100, 20, 10, "F", 12, true, false, (0, 0, 0)⟩

/-- A non-bold span for concrete data-row examples. -/
def mkDataSpan (t : String) (x : ℚ) : TextSpan :=
  ⟨t, x, 110, 10, 10, "F", 12, false, false, (0, 0, 0)⟩

/-- Header line: three bold spans at x = 0, 100, 205 (gaps 80 and 85). -/
def exHeaderLine : TextLine :=
  ⟨[mkHeaderSpan "A" 0, mkHeaderSpan "B" 100, mkHeaderSpan "C" 205], 100⟩

/-- Data line with cells in columns 0 and 1. -/
def exDataLine : TextLine := ⟨[mkDataSpan "a" 0, mkDataSpan "b" 100], 110⟩

def exLines : List TextLine := [exHeaderLine, exDataLine]

def exTable : TableStructure := ⟨["A", "B", "C"], [["a", "b", ""]], 100, 110, false⟩

/-- A one-span continuation line (single non-empty column after assignment). -/
def exContLine : TextLine := ⟨[mkDataSpan "d" 0], 120⟩

theorem detect_tables_exLines : detect_tables exLines = [exTable] := by
  norm_num +decide [detect_tables, detectTablesAux, sortedYsOf, yKeysOf, yGroupsOf, exLines,
    exHeaderLine, exDataLine, round1, round_eq, is_table_header, extract_table, exTable,
    headerSpansOf, stableSort, stableInsert, groupRowsAux, buildRowsAux, processRow,
    extract_row_cells, nearestColIdx, nearestColAux, is_table_row, nonEmptyCellCount,
    pyStrip, stripChars, isPySpace, mkHeaderSpan, mkDataSpan]

/-! ## Claim C1 -/

/-- Claim C1: every TableStructure produced by `_extract_table` or
`detect_tables` has rows of exactly `len(headers)` entries; the
cell-assignment algorithm always produces `num_cols` entries and continuation
folding never changes a row's length. -/
theorem c1_column_count_invariant :
    (∀ (line : TextLine) (col_positions : List ℚ) (num_cols : ℕ),
        (extract_row_cells line col_positions num_cols).length = num_cols) ∧
    (∀ (last row : List String), (foldContinuation last row).length = last.length) ∧
    (∀ (y_keys : List ℚ) (y_groups : ℚ → List TextLine) (t : TableStructure),
        extract_table y_keys y_groups = some t →
          ∀ r ∈ t.rows, r.length = t.headers.length) ∧
    (∀ (text_lines : List TextLine) (t : TableStructure),
        t ∈ detect_tables text_lines → ∀ r ∈ t.rows, r.length = t.headers.length) := by
  refine ⟨length_extract_row_cells, length_foldContinuation, extract_table_all_lengths, ?_⟩
  intro text_lines t ht
  obtain ⟨ks, hks⟩ := detectTablesAux_sub _ _ t ht
  exact extract_table_all_lengths _ _ t hks

/-- Witness for C1: the concrete detected table has a row of header width. -/
theorem c1_column_count_invariant_witness :
    exTable ∈ detect_tables exLines ∧
      ∀ r ∈ exTable.rows, r.length = exTable.headers.length := by
  have hm : exTable ∈ detect_tables exLines := by
    rw [detect_tables_exLines]
    exact List.mem_singleton_self _
  exact ⟨hm, c1_column_count_invariant.2.2.2 exLines exTable hm⟩

/-! ## Claim C2 -/

/-- Claim C2: the header test accepts exactly when there are at least 3 spans
overall, all spans are bold, and some gap between x-sorted consecutive spans
exceeds 5 units; with at most 2 spans it always rejects. -/
theorem c2_header_test_iff (lines : List TextLine) :
    (is_table_header lines = true ↔
      3 ≤ ((lines.map (·.spans)).flatten).length ∧
      (∀ s ∈ (lines.map (·.spans)).flatten, s.is_bold = true) ∧
      ∃ p ∈ (stableSort (fun s t => decide (s.x < t.x)) ((lines.map (·.spans)).flatten)).zip
          (stableSort (fun s t => decide (s.x < t.x)) ((lines.map (·.spans)).flatten)).tail,
        5 < p.2.x - (p.1.x + p.1.width)) ∧
    (((lines.map (·.spans)).flatten).length ≤ 2 → is_table_header lines = false) := by
  have main : is_table_header lines = true ↔
      3 ≤ ((lines.map (·.spans)).flatten).length ∧
      (∀ s ∈ (lines.map (·.spans)).flatten, s.is_bold = true) ∧
      ∃ p ∈ (stableSort (fun s t => decide (s.x < t.x)) ((lines.map (·.spans)).flatten)).zip
          (stableSort (fun s t => decide (s.x < t.x)) ((lines.map (·.spans)).flatten)).tail,
        5 < p.2.x - (p.1.x + p.1.width) := by
    unfold is_table_header
    by_cases h0 : lines.isEmpty
    · rw [if_pos h0]
      rw [List.isEmpty_iff] at h0
      subst h0
      simp
    · rw [if_neg h0]
      by_cases h1 : ((lines.map (·.spans)).flatten).isEmpty
      · rw [if_pos h1]
        rw [List.isEmpty_iff] at h1
        rw [h1]
        simp
      · rw [if_neg h1]
        by_cases h2 : ((lines.map (·.spans)).flatten).length < 3
        · rw [if_pos h2]
          constructor
          · intro hcon
            exact absurd hcon (by simp)
          · rintro ⟨h3, -, -⟩
            omega
        · rw [if_neg h2, if_pos (by omega : 2 ≤ ((lines.map (·.spans)).flatten).length)]
          rw [Bool.and_eq_true, List.all_eq_true, List.any_eq_true]
          constructor
          · rintro ⟨hb, g, hg1, hg2⟩
            obtain ⟨p, hp1, hp2⟩ := List.mem_map.mp hg1
            refine ⟨by omega, fun s hs => by simpa using hb s hs, p, hp1, ?_⟩
            rw [decide_eq_true_eq] at hg2
            rw [← hp2] at hg2
            exact hg2
          · rintro ⟨h3, hb, p, hp1, hp2⟩
            refine ⟨fun s hs => by simpa using hb s hs, ?_⟩
            exact ⟨_, List.mem_map_of_mem _ hp1, by simpa using hp2⟩
  refine ⟨main, ?_⟩
  intro hle
  rw [Bool.eq_false_iff]
  intro htrue
  have := (main.mp htrue).1
  omega

/-- Witness for C2: a candidate with no spans is rejected. -/
theorem c2_header_test_iff_witness : is_table_header [⟨[], 0⟩] = false :=
  (c2_header_test_iff [⟨[], 0⟩]).2 (by simp)

/-! ## Claim C3 -/

theorem tableRowsOf_cons (header_y : ℚ) (rest : List ℚ) (y_groups : ℚ → List TextLine) :
    tableRowsOf (header_y :: rest) y_groups =
      (buildRowsAux ((headerSpansOf (y_groups header_y)).map (·.x))
        ((headerSpansOf (y_groups header_y)).map (fun s => pyStrip s.text)).length
        (groupRowsAux header_y y_groups rest none [] []) [] header_y).1 := rfl

theorem extract_table_cons (header_y : ℚ) (rest : List ℚ) (y_groups : ℚ → List TextLine) :
    extract_table (header_y :: rest) y_groups =
      if (tableRowsOf (header_y :: rest) y_groups).isEmpty then none
      else some ⟨(headerSpansOf (y_groups header_y)).map (fun s => pyStrip s.text),
        tableRowsOf (header_y :: rest) y_groups, header_y,
        (buildRowsAux ((headerSpansOf (y_groups header_y)).map (·.x))
          ((headerSpansOf (y_groups header_y)).map (fun s => pyStrip s.text)).length
          (groupRowsAux header_y y_groups rest none [] []) [] header_y).2, false⟩ := rfl

/-- Claim C3: when no data row is accepted the extraction returns `None`
(every emitted table has a non-empty row list), and `detect_tables` emits no
table at a position where the extraction returned `None`. -/
theorem c3_no_rows_no_table :
    (∀ (y_keys : List ℚ) (y_groups : ℚ → List TextLine),
        tableRowsOf y_keys y_groups = [] → extract_table y_keys y_groups = none) ∧
    (∀ (y_keys : List ℚ) (y_groups : ℚ → List TextLine) (t : TableStructure),
        extract_table y_keys y_groups = some t →
          t.rows = tableRowsOf y_keys y_groups ∧ t.rows ≠ []) ∧
    (∀ (y_groups : ℚ → List TextLine) (y : ℚ) (rest : List ℚ),
        extract_table (y :: rest) y_groups = none →
          detectTablesAux y_groups (y :: rest) = detectTablesAux y_groups rest) := by
  refine ⟨?_, ?_, ?_⟩
  · intro ks g h
    cases ks with
    | nil => rfl
    | cons hy rest =>
        rw [extract_table_cons, if_pos (by rw [h]; rfl)]
  · intro ks g t h
    cases ks with
    | nil => exact absurd h (by simp [extract_table])
    | cons hy rest =>
        rw [extract_table_cons] at h
        by_cases he : (tableRowsOf (hy :: rest) g).isEmpty
        · rw [if_pos he] at h
          exact absurd h (by simp)
        · rw [if_neg he] at h
          have ht := Option.some.inj h
          subst ht
          exact ⟨rfl, by simpa using he⟩
  · intro g y rest h
    rw [detectTablesAux]
    by_cases hh : is_table_header (g y) = true
    · rw [if_pos hh, h]
    · rw [if_neg hh]

/-- Witness for C3: the empty key list yields no table. -/
theorem c3_no_rows_no_table_witness :
    extract_table [] (fun _ => []) = none :=
  c3_no_rows_no_table.1 [] (fun _ => []) rfl

/-! ## Claim C4 -/

/-- Claim C4: once at least one row is stored, an accepted row is folded into
the previous row exactly when it has exactly one non-empty cell after cell
assignment; otherwise it is appended as a new row (and the very first
accepted row is always appended). -/
theorem c4_continuation_iff (col_positions : List ℚ) (num_cols : ℕ)
    (rows : List (List String)) (line : TextLine) :
    (rows ≠ [] →
      (nonEmptyCellCount (extract_row_cells line col_positions num_cols) = 1 →
        processRow col_positions num_cols rows line =
          rows.dropLast ++ [foldContinuation (rows.getLastD [])
            (extract_row_cells line col_positions num_cols)]) ∧
      (nonEmptyCellCount (extract_row_cells line col_positions num_cols) ≠ 1 →
        processRow col_positions num_cols rows line =
          rows ++ [extract_row_cells line col_positions num_cols])) ∧
    (rows = [] →
      processRow col_positions num_cols rows line =
        [extract_row_cells line col_positions num_cols]) := by
  constructor
  · intro hne
    constructor
    · intro h1
      unfold processRow
      rw [if_pos ⟨hne, length_extract_row_cells .., h1⟩]
    · intro h1
      unfold processRow
      rw [if_neg (by rintro ⟨-, -, hc⟩; exact h1 hc)]
  · intro hnil
    subst hnil
    unfold processRow
    rw [if_neg (by rintro ⟨hq, -, -⟩; exact hq rfl)]
    rfl

/-- Witness for C4: a concrete one-non-empty-cell row is folded. -/
theorem c4_continuation_iff_witness :
    processRow [0, 100, 200] 3 [["a", "b", "c"]] exContLine = [["a d", "b", "c"]] := by
  rw [((c4_continuation_iff [0, 100, 200] 3 [["a", "b", "c"]] exContLine).1
    (by simp)).1
    (by norm_num +decide [extract_row_cells, nearestColIdx, nearestColAux, exContLine,
      mkDataSpan, nonEmptyCellCount, pyStrip, stripChars, isPySpace])]
  norm_num +decide [extract_row_cells, nearestColIdx, nearestColAux, exContLine,
    mkDataSpan, foldContinuation, pyStrip, stripChars, isPySpace]

/-! ## Claim C5 -/

theorem ite_bool_true (a b : ℕ) : (if (true = true) then a else b) = a := rfl

theorem ite_bool_false (a b : ℕ) : (if (false = true) then a else b) = b := rfl

theorem foldContinuation_count (last row : List String) (h : last.length = row.length) :
    nonEmptyCellCount (foldContinuation last row) +
      (last.zip row).countP
        (fun p => decide (pyStrip p.1 ≠ "") && decide (pyStrip p.2 ≠ "")) =
    nonEmptyCellCount last + nonEmptyCellCount row := by
  induction last generalizing row with
  | nil =>
      cases row with
      | nil => rfl
      | cons r rs => simp at h
  | cons l ls ih =>
      cases row with
      | nil => simp at h
      | cons r rs =>
          simp only [List.length_cons] at h
          have ihh := ih rs (by omega)
          simp only [nonEmptyCellCount] at ihh ⊢
          simp only [foldContinuation, List.zip_cons_cons, List.countP_cons]
          by_cases hr : pyStrip r = ""
          · have hcell : (if pyStrip r ≠ "" then (if l ≠ "" then l ++ " " ++ r else r) else l)
                = l := by rw [if_neg (by simp [hr])]
            have e1 : decide (pyStrip r ≠ "") = false := by simp [hr]
            rw [hcell, e1]
            simp only [Bool.and_false, ite_bool_false]
            omega
          · have e1 : decide (pyStrip r ≠ "") = true := by simp [hr]
            have hcell : (if pyStrip r ≠ "" then (if l ≠ "" then l ++ " " ++ r else r) else l)
                = (if l ≠ "" then l ++ " " ++ r else r) := if_pos hr
            rw [hcell, e1]
            by_cases hl : l = ""
            · have hc2 : (if l ≠ "" then l ++ " " ++ r else r) = r := by
                rw [if_neg (by simp [hl])]
              have e2 : decide (pyStrip l ≠ "") = false := by
                rw [hl]
                simp [pyStrip, stripChars]
              rw [hc2, e2, e1]
              simp only [Bool.false_and, ite_bool_false, ite_bool_true]
              omega
            · have hc2 : (if l ≠ "" then l ++ " " ++ r else r) = l ++ " " ++ r := if_pos hl
              have hne := pyStrip_append_space_ne l r hr
              have e3 : decide (pyStrip (l ++ " " ++ r) ≠ "") = true := by simp [hne]
              rw [hc2, e3]
              by_cases hpl : pyStrip l = ""
              · have e4 : decide (pyStrip l ≠ "") = false := by simp [hpl]
                rw [e4]
                simp only [Bool.false_and, ite_bool_false, ite_bool_true]
                omega
              · have e4 : decide (pyStrip l ≠ "") = true := by simp [hpl]
                rw [e4]
                simp only [Bool.and_self, ite_bool_true]
                omega

theorem countP_zip_le_right (l : List α) (r : List β) (q : α → Bool) (w : β → Bool) :
    (l.zip r).countP (fun p => q p.1 && w p.2) ≤ r.countP w := by
  induction l generalizing r with
  | nil => simp
  | cons a as ih =>
      cases r with
      | nil => simp
      | cons b bs =>
          simp only [List.zip_cons_cons, List.countP_cons]
          have := ih bs
          by_cases hw : w b = true
          · simp only [hw, Bool.and_true, if_true]
            cases hq : q a <;> simp <;> omega
          · have : w b = false := by simpa using hw
            simp only [this, Bool.and_false]
            simp
            omega

/-- Counterexample to C5 as stated: folding a one-cell continuation row into a
previous row whose corresponding cell is already non-empty merges two
non-empty cells into one, so the total non-empty cell count drops from 4 to 3. -/
theorem c5_count_preservation_counterexample :
    processRow [0, 100, 200] 3 [["a", "b", "c"]] exContLine = [["a d", "b", "c"]] ∧
    nonEmptyCellCount (extract_row_cells exContLine [0, 100, 200] 3) = 1 ∧
    nonEmptyTotal [["a d", "b", "c"]] = 3 ∧
    nonEmptyTotal ([["a", "b", "c"]] ++ [extract_row_cells exContLine [0, 100, 200] 3]) = 4 := by
  norm_num +decide [processRow, extract_row_cells, nearestColIdx, nearestColAux, exContLine,
    mkDataSpan, nonEmptyCellCount, nonEmptyTotal, foldContinuation, pyStrip, stripChars,
    isPySpace]

/-- Claim C5 amended: a continuation fold loses exactly the number of
positions where both the previous row's cell and the folded row's cell are
non-empty (at most one, since the folded row has exactly one non-empty cell):
total non-empty cells are preserved when the previous row's corresponding cell
is empty and drop by one otherwise; the row count never increases. -/
theorem c5_fold_count_amended (col_positions : List ℚ) (num_cols : ℕ)
    (rows : List (List String)) (line : TextLine)
    (hne : rows ≠ []) (hlen : ∀ r ∈ rows, r.length = num_cols)
    (hcount : nonEmptyCellCount (extract_row_cells line col_positions num_cols) = 1) :
    nonEmptyTotal (processRow col_positions num_cols rows line) +
        ((rows.getLastD []).zip (extract_row_cells line col_positions num_cols)).countP
          (fun p => decide (pyStrip p.1 ≠ "") && decide (pyStrip p.2 ≠ "")) =
      nonEmptyTotal (rows ++ [extract_row_cells line col_positions num_cols]) ∧
    ((rows.getLastD []).zip (extract_row_cells line col_positions num_cols)).countP
        (fun p => decide (pyStrip p.1 ≠ "") && decide (pyStrip p.2 ≠ "")) ≤ 1 ∧
    (processRow col_positions num_cols rows line).length ≤
      (rows ++ [extract_row_cells line col_positions num_cols]).length := by
  set row := extract_row_cells line col_positions num_cols with hrow
  have hfold : processRow col_positions num_cols rows line =
      rows.dropLast ++ [foldContinuation (rows.getLastD []) row] := by
    unfold processRow
    rw [if_pos ⟨hne, length_extract_row_cells .., hcount⟩]
  have hlast : rows.dropLast ++ [rows.getLastD []] = rows :=
    dropLast_concat_getLastD rows [] hne
  have hlastlen : (rows.getLastD []).length = num_cols :=
    hlen _ (getLastD_mem rows [] hne)
  have hrowlen : row.length = num_cols := by
    rw [hrow]
    exact length_extract_row_cells ..
  refine ⟨?_, ?_, ?_⟩
  · rw [hfold]
    have htot : nonEmptyTotal rows =
        nonEmptyTotal rows.dropLast + nonEmptyCellCount (rows.getLastD []) := by
      conv_lhs => rw [← hlast]
      unfold nonEmptyTotal
      rw [List.map_append, List.sum_append]
      simp
    unfold nonEmptyTotal
    rw [List.map_append, List.sum_append, List.map_append, List.sum_append]
    simp only [List.map_cons, List.map_nil, List.sum_cons, List.sum_nil]
    have hkey := foldContinuation_count (rows.getLastD []) row (by omega)
    unfold nonEmptyTotal at htot
    omega
  · calc ((rows.getLastD []).zip row).countP
          (fun p => decide (pyStrip p.1 ≠ "") && decide (pyStrip p.2 ≠ ""))
        ≤ row.countP (fun cell => decide (pyStrip cell ≠ "")) :=
          countP_zip_le_right (rows.getLastD []) row
            (fun a => decide (pyStrip a ≠ "")) (fun b => decide (pyStrip b ≠ ""))
      _ = 1 := hcount
  · rw [hfold]
    simp only [List.length_append, List.length_dropLast, List.length_cons,
      List.length_nil]
    have : rows.length ≥ 1 := by
      cases rows with
      | nil => exact absurd rfl hne
      | cons a as => simp
    omega

/-- Witness for the amended C5 at the concrete counterexample input. -/
theorem c5_fold_count_amended_witness :
    nonEmptyTotal (processRow [0, 100, 200] 3 [["a", "b", "c"]] exContLine) +
        (([["a", "b", "c"]].getLastD []).zip
            (extract_row_cells exContLine [0, 100, 200] 3)).countP
          (fun p => decide (pyStrip p.1 ≠ "") && decide (pyStrip p.2 ≠ "")) =
      nonEmptyTotal ([["a", "b", "c"]] ++
        [extract_row_cells exContLine [0, 100, 200] 3]) :=
  (c5_fold_count_amended [0, 100, 200] 3 [["a", "b", "c"]] exContLine
    (by simp)
    (by intro r hr; simp at hr; subst hr; rfl)
    (by norm_num +decide [extract_row_cells, nearestColIdx, nearestColAux, exContLine,
      mkDataSpan, nonEmptyCellCount, pyStrip, stripChars, isPySpace])).1

/-! ## Claim C8 -/

theorem groupRowsAux_dropLast_bound (header_y : ℚ) (y_groups : ℚ → List TextLine) :
    ∀ (keys : List ℚ) (cur_y : Option ℚ) (cur_lines : List TextLine)
      (row_groups : List (ℚ × List TextLine)),
      (∀ p ∈ row_groups, p.1 ≤ header_y + 200) →
      (∀ ry, cur_y = some ry → ry ≤ header_y + 200) →
      ∀ p ∈ (groupRowsAux header_y y_groups keys cur_y cur_lines row_groups).dropLast,
        p.1 ≤ header_y + 200 := by
  intro keys
  induction keys with
  | nil =>
      intro cur_y cur_lines rgs h1 h2 p hp
      unfold groupRowsAux at hp
      by_cases hc : cur_lines.isEmpty
      · rw [if_pos hc] at hp
        exact h1 p (List.mem_of_mem_dropLast hp)
      · rw [if_neg hc, List.dropLast_concat] at hp
        exact h1 p hp
  | cons y rest ih =>
      intro cur_y cur_lines rgs h1 h2 p hp
      cases cur_y with
      | none =>
          unfold groupRowsAux at hp
          by_cases hl : (y_groups y).isEmpty
          · rw [if_pos hl] at hp
            exact ih none cur_lines rgs h1 h2 p hp
          · rw [if_neg hl] at hp
            by_cases hb : y - header_y > 200
            · rw [if_pos hb] at hp
              by_cases he : (cur_lines ++ y_groups y).isEmpty
              · rw [if_pos he] at hp
                exact h1 p (List.mem_of_mem_dropLast hp)
              · rw [if_neg he, List.dropLast_concat] at hp
                exact h1 p hp
            · rw [if_neg hb] at hp
              refine ih (some y) (cur_lines ++ y_groups y) rgs h1 ?_ p hp
              intro ry hry
              cases hry
              linarith
      | some ry =>
          have hrb : ry ≤ header_y + 200 := h2 ry rfl
          unfold groupRowsAux at hp
          by_cases hl : (y_groups y).isEmpty
          · rw [if_pos hl] at hp
            exact ih (some ry) cur_lines rgs h1 h2 p hp
          · rw [if_neg hl] at hp
            by_cases hnear : |y - ry| ≤ 2
            · rw [if_pos hnear] at hp
              by_cases hb : y - header_y > 200
              · rw [if_pos hb] at hp
                by_cases he : (cur_lines ++ y_groups y).isEmpty
                · rw [if_pos he] at hp
                  exact h1 p (List.mem_of_mem_dropLast hp)
                · rw [if_neg he, List.dropLast_concat] at hp
                  exact h1 p hp
              · rw [if_neg hb] at hp
                exact ih (some ry) (cur_lines ++ y_groups y) rgs h1 h2 p hp
            · rw [if_neg hnear] at hp
              have h1' : ∀ q ∈ (if cur_lines.isEmpty then rgs
                  else rgs ++ [(ry, cur_lines)]), q.1 ≤ header_y + 200 := by
                intro q hq
                by_cases hce : cur_lines.isEmpty
                · rw [if_pos hce] at hq
                  exact h1 q hq
                · rw [if_neg hce] at hq
                  rcases List.mem_append.mp hq with hq1 | hq2
                  · exact h1 q hq1
                  · rw [List.mem_singleton.mp hq2]
                    exact hrb
              by_cases hb : y - header_y > 200
              · rw [if_pos hb, if_neg hl, List.dropLast_concat] at hp
                exact h1' p hp
              · rw [if_neg hb] at hp
                refine ih (some y) (y_groups y) _ h1' ?_ p hp
                intro ry2 hry2
                cases hry2
                linarith

/-- Counterexample to C8 as stated: the cutoff check runs after the offending
key has been taken into the current row group, so a data row 300 units below
the header is still consumed and the emitted table spans more than 200 units. -/
theorem c8_cutoff_counterexample :
    detect_tables [⟨[mkHeaderSpan "A" 0, mkHeaderSpan "B" 100, mkHeaderSpan "C" 205], 0⟩,
        ⟨[mkDataSpan "a" 0], 300⟩] =
      [⟨["A", "B", "C"], [["a", "", ""]], 0, 300, false⟩] ∧
    ¬ ((⟨["A", "B", "C"], [["a", "", ""]], 0, 300, false⟩ : TableStructure).y_end -
        (⟨["A", "B", "C"], [["a", "", ""]], 0, 300, false⟩ : TableStructure).y_start ≤ 200) := by
  constructor
  · norm_num +decide [detect_tables, detectTablesAux, sortedYsOf, yKeysOf, yGroupsOf,
      round1, round_eq, is_table_header, extract_table, headerSpansOf, stableSort,
      stableInsert, groupRowsAux, buildRowsAux, processRow, extract_row_cells,
      nearestColIdx, nearestColAux, is_table_row, nonEmptyCellCount, pyStrip, stripChars,
      isPySpace, mkHeaderSpan, mkDataSpan]
  · norm_num

/-- Claim C8 amended: the scan stops at the first y-key beyond
`header_y + 200`, but that key is still consumed into the final row group, so
every consumed row group except possibly the last lies within 200 units of the
header (and the final one — hence `y_end - y_start` — may exceed the cutoff). -/
theorem c8_cutoff_amended (y_keys : List ℚ) (y_groups : ℚ → List TextLine) :
    ∀ p ∈ (rowGroupsOf y_keys y_groups).dropLast, p.1 ≤ y_keys.headD 0 + 200 := by
  cases y_keys with
  | nil =>
      intro p hp
      simp [rowGroupsOf] at hp
  | cons header_y rest =>
      intro p hp
      exact groupRowsAux_dropLast_bound header_y y_groups rest none [] []
        (by intro q hq; simp at hq) (by intro ry hry; cases hry) p hp

/-- A concrete y-group function with rows at y = 10 and y = 300. -/
def exRowGroupsFun : ℚ → List TextLine :=
  fun y => if y = 10 then [⟨[mkDataSpan "p" 0], 10⟩]
    else if y = 300 then [⟨[mkDataSpan "q" 0], 300⟩] else []

/-- Witness for the amended C8: the non-final consumed row group at y = 10
satisfies the bound. -/
theorem c8_cutoff_amended_witness :
    ((10 : ℚ), [(⟨[mkDataSpan "p" 0], 10⟩ : TextLine)]).1 ≤
      (([0, 10, 300] : List ℚ).headD 0) + 200 :=
  c8_cutoff_amended [0, 10, 300] exRowGroupsFun _
    (by norm_num +decide [rowGroupsOf, groupRowsAux, exRowGroupsFun, mkDataSpan])

/-! ## Claim C6: decomposition of the per-line loop -/

/-- The `tables_added` update a single line performs. -/
def flowAddedStep (tables : List TableStructure) (added : List ℕ) (line : TextLine) :
    List ℕ :=
  match firstTableIdx (tableRanges tables) line.y with
  | none => added
  | some idx =>
      if idx ∉ added then
        if |line.y - (tables.getD idx default).y_start| ≤ 1 then idx :: added else added
      else added

/-- The elements a single line emits. -/
def flowEmitStep (tables : List TableStructure) (added : List ℕ) (line : TextLine) :
    List FlowElem :=
  match firstTableIdx (tableRanges tables) line.y with
  | none => [FlowElem.textLine line]
  | some idx =>
      if idx ∉ added then
        if |line.y - (tables.getD idx default).y_start| ≤ 1 then
          [FlowElem.table (tables.getD idx default)]
        else []
      else []

/-- Elements emitted over a run of lines from a given `tables_added` state. -/
def flowEmitList (tables : List TableStructure) : List ℕ → List TextLine → List FlowElem
  | _, [] => []
  | added, line :: rest =>
      flowEmitStep tables added line ++
        flowEmitList tables (flowAddedStep tables added line) rest

/-- Final `tables_added` state over a run of lines. -/
def flowAddedList (tables : List TableStructure) : List ℕ → List TextLine → List ℕ
  | added, [] => added
  | added, line :: rest => flowAddedList tables (flowAddedStep tables added line) rest

theorem flowStep_decomp (tables : List TableStructure) (st : List ℕ × List FlowElem)
    (line : TextLine) :
    flowStep tables st line = (flowAddedStep tables st.1 line,
      st.2 ++ flowEmitStep tables st.1 line) := by
  obtain ⟨added, out⟩ := st
  unfold flowStep flowAddedStep flowEmitStep
  rcases hidx : firstTableIdx (tableRanges tables) line.y with _ | idx
  · simp
  · simp only
    by_cases hmem : idx ∈ added
    · simp [hmem]
    · simp [hmem]
      split <;> simp

theorem foldl_flowStep_decomp (tables : List TableStructure) :
    ∀ (lines : List TextLine) (added : List ℕ) (out : List FlowElem),
      lines.foldl (flowStep tables) (added, out) =
        (flowAddedList tables added lines, out ++ flowEmitList tables added lines) := by
  intro lines
  induction lines with
  | nil => intro added out; simp [flowAddedList, flowEmitList]
  | cons l rest ih =>
      intro added out
      simp only [List.foldl_cons, flowStep_decomp]
      rw [ih]
      simp [flowAddedList, flowEmitList]

theorem flowPage_eq_emitList (tables : List TableStructure) (lines : List TextLine) :
    flowPage tables lines = flowEmitList tables [] lines := by
  unfold flowPage
  rw [foldl_flowStep_decomp]
  simp

theorem firstIdxAux_lt (y : ℚ) :
    ∀ (rs : List (ℚ × ℚ)) (i idx : ℕ), firstIdxAux y i rs = some idx →
      idx < i + rs.length := by
  intro rs
  induction rs with
  | nil => intro i idx h; exact absurd h (by simp [firstIdxAux])
  | cons r rest ih =>
      intro i idx h
      unfold firstIdxAux at h
      by_cases hc : r.1 ≤ y ∧ y ≤ r.2
      · rw [if_pos hc] at h
        have := Option.some.inj h
        subst this
        simp only [List.length_cons]
        omega
      · rw [if_neg hc] at h
        have := ih (i + 1) idx h
        simp only [List.length_cons]
        omega

theorem firstTableIdx_lt (ranges : List (ℚ × ℚ)) (y : ℚ) (idx : ℕ)
    (h : firstTableIdx ranges y = some idx) : idx < ranges.length := by
  have := firstIdxAux_lt y ranges 0 idx h
  omega

theorem flowAddedStep_none {tables : List TableStructure} {line : TextLine}
    (added : List ℕ) (h : firstTableIdx (tableRanges tables) line.y = none) :
    flowAddedStep tables added line = added := by
  unfold flowAddedStep
  rw [h]

theorem flowAddedStep_some_new {tables : List TableStructure} {line : TextLine}
    {idx : ℕ} (added : List ℕ) (h : firstTableIdx (tableRanges tables) line.y = some idx)
    (hmem : idx ∉ added) (hnear : |line.y - (tables.getD idx default).y_start| ≤ 1) :
    flowAddedStep tables added line = idx :: added := by
  unfold flowAddedStep
  rw [h]
  simp only [if_pos hmem, if_pos hnear]

theorem flowAddedStep_some_far {tables : List TableStructure} {line : TextLine}
    {idx : ℕ} (added : List ℕ) (h : firstTableIdx (tableRanges tables) line.y = some idx)
    (hnear : ¬ |line.y - (tables.getD idx default).y_start| ≤ 1) :
    flowAddedStep tables added line = added := by
  unfold flowAddedStep
  rw [h]
  by_cases hmem : idx ∈ added
  · simp only [if_neg (not_not_intro hmem)]
  · simp only [if_pos hmem, if_neg hnear]

theorem flowAddedStep_some_old {tables : List TableStructure} {line : TextLine}
    {idx : ℕ} (added : List ℕ) (h : firstTableIdx (tableRanges tables) line.y = some idx)
    (hmem : idx ∈ added) : flowAddedStep tables added line = added := by
  unfold flowAddedStep
  rw [h]
  simp only [if_neg (not_not_intro hmem)]

theorem flowEmitStep_none {tables : List TableStructure} {line : TextLine}
    (added : List ℕ) (h : firstTableIdx (tableRanges tables) line.y = none) :
    flowEmitStep tables added line = [FlowElem.textLine line] := by
  unfold flowEmitStep
  rw [h]

theorem flowEmitStep_some_new {tables : List TableStructure} {line : TextLine}
    {idx : ℕ} (added : List ℕ) (h : firstTableIdx (tableRanges tables) line.y = some idx)
    (hmem : idx ∉ added) (hnear : |line.y - (tables.getD idx default).y_start| ≤ 1) :
    flowEmitStep tables added line = [FlowElem.table (tables.getD idx default)] := by
  unfold flowEmitStep
  rw [h]
  simp only [if_pos hmem, if_pos hnear]

theorem flowEmitStep_some_far {tables : List TableStructure} {line : TextLine}
    {idx : ℕ} (added : List ℕ) (h : firstTableIdx (tableRanges tables) line.y = some idx)
    (hnear : ¬ |line.y - (tables.getD idx default).y_start| ≤ 1) :
    flowEmitStep tables added line = [] := by
  unfold flowEmitStep
  rw [h]
  by_cases hmem : idx ∈ added
  · simp only [if_neg (not_not_intro hmem)]
  · simp only [if_pos hmem, if_neg hnear]

theorem flowEmitStep_some_old {tables : List TableStructure} {line : TextLine}
    {idx : ℕ} (added : List ℕ) (h : firstTableIdx (tableRanges tables) line.y = some idx)
    (hmem : idx ∈ added) : flowEmitStep tables added line = [] := by
  unfold flowEmitStep
  rw [h]
  simp only [if_neg (not_not_intro hmem)]

theorem triggersTable_of_none {tables : List TableStructure} {line : TextLine}
    (h : firstTableIdx (tableRanges tables) line.y = none) (idx : ℕ) :
    ¬ triggersTable tables line idx := by
  rintro ⟨h1, -⟩
  rw [h] at h1
  cases h1

theorem triggersTable_iff_of_some {tables : List TableStructure} {line : TextLine}
    {idx0 : ℕ} (h : firstTableIdx (tableRanges tables) line.y = some idx0) (idx : ℕ) :
    triggersTable tables line idx ↔
      idx = idx0 ∧ |line.y - (tables.getD idx0 default).y_start| ≤ 1 := by
  unfold triggersTable
  rw [h]
  constructor
  · rintro ⟨h1, h2⟩
    have he : idx0 = idx := Option.some.inj h1
    subst he
    exact ⟨rfl, h2⟩
  · rintro ⟨rfl, h2⟩
    exact ⟨rfl, h2⟩

theorem mem_flowAddedList (tables : List TableStructure) :
    ∀ (lines : List TextLine) (added : List ℕ) (idx : ℕ),
      idx ∈ flowAddedList tables added lines ↔
        idx ∈ added ∨ ∃ l ∈ lines, triggersTable tables l idx := by
  intro lines
  induction lines with
  | nil =>
      intro added idx
      simp [flowAddedList]
  | cons l rest ih =>
      intro added idx
      unfold flowAddedList
      rw [ih]
      simp only [List.mem_cons]
      rcases hidx : firstTableIdx (tableRanges tables) l.y with _ | idx0
      · rw [flowAddedStep_none added hidx]
        constructor
        · rintro (h1 | ⟨l2, hl2, ht⟩)
          · exact Or.inl h1
          · exact Or.inr ⟨l2, Or.inr hl2, ht⟩
        · rintro (h1 | ⟨l2, rfl | h3, ht⟩)
          · exact Or.inl h1
          · exact absurd ht (triggersTable_of_none hidx idx)
          · exact Or.inr ⟨l2, h3, ht⟩
      · by_cases hmem : idx0 ∈ added
        · rw [flowAddedStep_some_old added hidx hmem]
          constructor
          · rintro (h1 | ⟨l2, hl2, ht⟩)
            · exact Or.inl h1
            · exact Or.inr ⟨l2, Or.inr hl2, ht⟩
          · rintro (h1 | ⟨l2, rfl | h3, ht⟩)
            · exact Or.inl h1
            · rcases (triggersTable_iff_of_some hidx idx).mp ht with ⟨rfl, -⟩
              exact Or.inl hmem
            · exact Or.inr ⟨l2, h3, ht⟩
        · by_cases hnear : |l.y - (tables.getD idx0 default).y_start| ≤ 1
          · rw [flowAddedStep_some_new added hidx hmem hnear]
            simp only [List.mem_cons]
            constructor
            · rintro ((h1 | h1) | ⟨l2, hl2, ht⟩)
              · subst h1
                exact Or.inr ⟨l, Or.inl rfl,
                  (triggersTable_iff_of_some hidx idx).mpr ⟨rfl, hnear⟩⟩
              · exact Or.inl h1
              · exact Or.inr ⟨l2, Or.inr hl2, ht⟩
            · rintro (h1 | ⟨l2, rfl | h3, ht⟩)
              · exact Or.inl (Or.inr h1)
              · rcases (triggersTable_iff_of_some hidx idx).mp ht with ⟨rfl, -⟩
                exact Or.inl (Or.inl rfl)
              · exact Or.inr ⟨l2, h3, ht⟩
          · rw [flowAddedStep_some_far added hidx hnear]
            constructor
            · rintro (h1 | ⟨l2, hl2, ht⟩)
              · exact Or.inl h1
              · exact Or.inr ⟨l2, Or.inr hl2, ht⟩
            · rintro (h1 | ⟨l2, rfl | h3, ht⟩)
              · exact Or.inl h1
              · rcases (triggersTable_iff_of_some hidx idx).mp ht with ⟨rfl, hn⟩
                exact absurd hn hnear
              · exact Or.inr ⟨l2, h3, ht⟩

theorem flowEmitList_texts (tables : List TableStructure) :
    ∀ (lines : List TextLine) (added : List ℕ),
      (flowEmitList tables added lines).filterMap FlowElem.textOf =
        lines.filter (fun l => (firstTableIdx (tableRanges tables) l.y).isNone) := by
  intro lines
  induction lines with
  | nil =>
      intro added
      simp [flowEmitList]
  | cons l rest ih =>
      intro added
      unfold flowEmitList
      rw [List.filterMap_append, List.filter_cons]
      rcases hidx : firstTableIdx (tableRanges tables) l.y with _ | idx0
      · rw [flowEmitStep_none added hidx, ih]
        simp [FlowElem.textOf, hidx]
      · have hemit : (flowEmitStep tables added l).filterMap FlowElem.textOf = [] := by
          by_cases hmem : idx0 ∈ added
          · rw [flowEmitStep_some_old added hidx hmem]
            rfl
          · by_cases hnear : |l.y - (tables.getD idx0 default).y_start| ≤ 1
            · rw [flowEmitStep_some_new added hidx hmem hnear]
              rfl
            · rw [flowEmitStep_some_far added hidx hnear]
              rfl
        rw [hemit, ih]
        simp [hidx]

theorem countP_add_one_of_nodup {α : Type _} [DecidableEq α] :
    ∀ (L : List α), L.Nodup → ∀ (a : α), a ∈ L → ∀ (p q : α → Bool),
      q a = true → p a = false → (∀ x ∈ L, x ≠ a → q x = p x) →
      L.countP q = L.countP p + 1 := by
  intro L
  induction L with
  | nil =>
      intro _ a ha
      cases ha
  | cons b bs ih =>
      intro hnd a ha p q hqa hpa hcong
      rw [List.countP_cons, List.countP_cons]
      rcases List.mem_cons.mp ha with hb | hbs
      · subst hb
        have heq : bs.countP q = bs.countP p := by
          refine List.countP_congr ?_
          intro x hx
          have hxa : x ≠ a := by
            intro hcontra
            subst hcontra
            exact (List.nodup_cons.mp hnd).1 hx
          rw [hcong x (List.mem_cons_of_mem _ hx) hxa]
        rw [hqa, hpa, heq, ite_bool_true, ite_bool_false]
      · have hbne : b ≠ a := by
          intro hcontra
          subst hcontra
          exact (List.nodup_cons.mp hnd).1 hbs
        rw [hcong b (List.mem_cons_self ..) hbne]
        have := ih (List.nodup_cons.mp hnd).2 a hbs p q hqa hpa
          (fun x hx hxa => hcong x (List.mem_cons_of_mem _ hx) hxa)
        omega

theorem countP_congr_decide {α : Type _} (L : List α) (P Q : α → Prop)
    [DecidablePred P] [DecidablePred Q] (h : ∀ x ∈ L, P x ↔ Q x) :
    L.countP (fun x => decide (P x)) = L.countP (fun x => decide (Q x)) := by
  refine List.countP_congr ?_
  intro x hx
  simp only [decide_eq_true_eq]
  exact h x hx

theorem flowEmitList_count (tables : List TableStructure) :
    ∀ (lines : List TextLine) (added : List ℕ),
      (flowEmitList tables added lines).countP FlowElem.isTable =
        (List.range tables.length).countP
          (fun idx => decide (idx ∉ added ∧ ∃ l ∈ lines, triggersTable tables l idx)) := by
  intro lines
  induction lines with
  | nil =>
      intro added
      simp [flowEmitList]
  | cons l rest ih =>
      intro added
      unfold flowEmitList
      rw [List.countP_append, ih]
      rcases hidx : firstTableIdx (tableRanges tables) l.y with _ | idx0
      · rw [flowEmitStep_none added hidx, flowAddedStep_none added hidx]
        have h0 : List.countP FlowElem.isTable [FlowElem.textLine l] = 0 := rfl
        rw [h0, Nat.zero_add]
        refine countP_congr_decide _ _ _ ?_
        intro x _
        refine and_congr_right (fun _ => ?_)
        simp only [List.mem_cons]
        constructor
        · rintro ⟨l2, h3, ht⟩
          exact ⟨l2, Or.inr h3, ht⟩
        · rintro ⟨l2, rfl | h3, ht⟩
          · exact absurd ht (triggersTable_of_none hidx x)
          · exact ⟨l2, h3, ht⟩
      · by_cases hmem : idx0 ∈ added
        · rw [flowEmitStep_some_old added hidx hmem, flowAddedStep_some_old added hidx hmem]
          rw [List.countP_nil, Nat.zero_add]
          refine countP_congr_decide _ _ _ ?_
          intro x _
          constructor
          · rintro ⟨hx1, l2, h3, ht⟩
            exact ⟨hx1, l2, List.mem_cons_of_mem _ h3, ht⟩
          · rintro ⟨hx1, l2, hl2, ht⟩
            refine ⟨hx1, ?_⟩
            rcases List.mem_cons.mp hl2 with rfl | h3
            · rcases (triggersTable_iff_of_some hidx x).mp ht with ⟨rfl, -⟩
              exact absurd hmem hx1
            · exact ⟨l2, h3, ht⟩
        · by_cases hnear : |l.y - (tables.getD idx0 default).y_start| ≤ 1
          · rw [flowEmitStep_some_new added hidx hmem hnear,
              flowAddedStep_some_new added hidx hmem hnear]
            have h1 : List.countP FlowElem.isTable
                [FlowElem.table (tables.getD idx0 default)] = 1 := rfl
            rw [h1]
            have hlt : idx0 < tables.length := by
              have := firstTableIdx_lt (tableRanges tables) l.y idx0 hidx
              simpa [tableRanges] using this
            have hkey := countP_add_one_of_nodup (List.range tables.length)
              (List.nodup_range ..) idx0 (List.mem_range.mpr hlt)
              (fun idx => decide (idx ∉ idx0 :: added ∧
                ∃ l2 ∈ rest, triggersTable tables l2 idx))
              (fun idx => decide (idx ∉ added ∧
                ∃ l2 ∈ l :: rest, triggersTable tables l2 idx))
              (by
                simp only [decide_eq_true_eq]
                exact ⟨hmem, l, List.mem_cons_self ..,
                  (triggersTable_iff_of_some hidx idx0).mpr ⟨rfl, hnear⟩⟩)
              (by
                simp only [decide_eq_false_iff_not]
                rintro ⟨hx1, -⟩
                exact hx1 (List.mem_cons_self ..))
              (by
                intro x _ hxne
                refine decide_eq_decide.mpr ?_
                constructor
                · rintro ⟨hx1, l2, hl2, ht⟩
                  refine ⟨?_, ?_⟩
                  · intro hc
                    rcases List.mem_cons.mp hc with rfl | hc2
                    · exact hxne rfl
                    · exact hx1 hc2
                  · rcases List.mem_cons.mp hl2 with rfl | h3
                    · rcases (triggersTable_iff_of_some hidx x).mp ht with ⟨rfl, -⟩
                      exact absurd rfl hxne
                    · exact ⟨l2, h3, ht⟩
                · rintro ⟨hx1, l2, h3, ht⟩
                  exact ⟨fun hc => hx1 (List.mem_cons_of_mem _ hc),
                    l2, List.mem_cons_of_mem _ h3, ht⟩)
            omega
          · rw [flowEmitStep_some_far added hidx hnear,
              flowAddedStep_some_far added hidx hnear]
            rw [List.countP_nil, Nat.zero_add]
            refine countP_congr_decide _ _ _ ?_
            intro x _
            refine and_congr_right (fun _ => ?_)
            constructor
            · rintro ⟨l2, h3, ht⟩
              exact ⟨l2, List.mem_cons_of_mem _ h3, ht⟩
            · rintro ⟨l2, hl2, ht⟩
              rcases List.mem_cons.mp hl2 with rfl | h3
              · rcases (triggersTable_iff_of_some hidx x).mp ht with ⟨rfl, hn⟩
                exact absurd hn hnear
              · exact ⟨l2, h3, ht⟩

theorem flowEmitList_table_mem (tables : List TableStructure) :
    ∀ (lines : List TextLine) (added : List ℕ) (idx : ℕ),
      idx ∉ added → (∃ l ∈ lines, triggersTable tables l idx) →
      FlowElem.table (tables.getD idx default) ∈ flowEmitList tables added lines := by
  intro lines
  induction lines with
  | nil =>
      rintro added idx _ ⟨l, hl, -⟩
      cases hl
  | cons l rest ih =>
      rintro added idx hmem ⟨l2, hl2, ht⟩
      unfold flowEmitList
      rcases List.mem_cons.mp hl2 with rfl | h3
      · rw [flowEmitStep_some_new added ht.1 hmem ht.2]
        exact List.mem_append_left _ (List.mem_singleton_self _)
      · rcases hidx : firstTableIdx (tableRanges tables) l.y with _ | idx0
        · rw [flowAddedStep_none added hidx]
          exact List.mem_append_right _ (ih added idx hmem ⟨l2, h3, ht⟩)
        · by_cases hmem0 : idx0 ∈ added
          · rw [flowAddedStep_some_old added hidx hmem0]
            exact List.mem_append_right _ (ih added idx hmem ⟨l2, h3, ht⟩)
          · by_cases hnear0 : |l.y - (tables.getD idx0 default).y_start| ≤ 1
            · rw [flowAddedStep_some_new added hidx hmem0 hnear0]
              by_cases hsame : idx = idx0
              · subst hsame
                rw [flowEmitStep_some_new added hidx hmem0 hnear0]
                exact List.mem_append_left _ (List.mem_singleton_self _)
              · refine List.mem_append_right _ (ih (idx0 :: added) idx ?_ ⟨l2, h3, ht⟩)
                intro hc
                rcases List.mem_cons.mp hc with hc1 | hc2
                · exact hsame hc1
                · exact hmem hc2
            · rw [flowAddedStep_some_far added hidx hnear0]
              exact List.mem_append_right _ (ih added idx hmem ⟨l2, h3, ht⟩)

/-- What the loop emits at one line's position, described in terms of the
lines processed before it (no threaded state): a line outside every table
range emits its text element; a line whose first matching range is table
`idx` emits that table exactly when the line's y is within 1 unit of the
table's `y_start` and no earlier line already triggered table `idx`; every
other in-range line emits nothing. -/
def lineEmission (tables : List TableStructure) (earlier : List TextLine)
    (line : TextLine) : List FlowElem :=
  match firstTableIdx (tableRanges tables) line.y with
  | none => [FlowElem.textLine line]
  | some idx =>
      if |line.y - (tables.getD idx default).y_start| ≤ 1 ∧
          ¬ ∃ l ∈ earlier, triggersTable tables l idx then
        [FlowElem.table (tables.getD idx default)]
      else []

/-- The page stream described positionally: each line contributes
`lineEmission` at its own place in reading order. -/
def flowPositionalAux (tables : List TableStructure) :
    List TextLine → List TextLine → List FlowElem
  | _, [] => []
  | earlier, line :: rest =>
      lineEmission tables earlier line ++
        flowPositionalAux tables (earlier ++ [line]) rest

/-- Positional description of the whole per-page stream. -/
def flowPositional (tables : List TableStructure) (lines : List TextLine) :
    List FlowElem :=
  flowPositionalAux tables [] lines

theorem lineEmission_none {tables : List TableStructure} {line : TextLine}
    (earlier : List TextLine) (h : firstTableIdx (tableRanges tables) line.y = none) :
    lineEmission tables earlier line = [FlowElem.textLine line] := by
  unfold lineEmission
  rw [h]

theorem lineEmission_some {tables : List TableStructure} {line : TextLine} {idx : ℕ}
    (earlier : List TextLine) (h : firstTableIdx (tableRanges tables) line.y = some idx) :
    lineEmission tables earlier line =
      if |line.y - (tables.getD idx default).y_start| ≤ 1 ∧
          ¬ ∃ l ∈ earlier, triggersTable tables l idx then
        [FlowElem.table (tables.getD idx default)]
      else [] := by
  unfold lineEmission
  rw [h]

theorem flowEmitStep_eq_lineEmission (tables : List TableStructure)
    (added : List ℕ) (earlier : List TextLine) (line : TextLine)
    (hinv : ∀ idx, idx ∈ added ↔ ∃ l ∈ earlier, triggersTable tables l idx) :
    flowEmitStep tables added line = lineEmission tables earlier line := by
  rcases hidx : firstTableIdx (tableRanges tables) line.y with _ | idx
  · rw [flowEmitStep_none added hidx, lineEmission_none earlier hidx]
  · rw [lineEmission_some earlier hidx]
    by_cases hmem : idx ∈ added
    · rw [flowEmitStep_some_old added hidx hmem]
      rw [if_neg ?_]
      rintro ⟨-, hne⟩
      exact hne ((hinv idx).mp hmem)
    · by_cases hnear : |line.y - (tables.getD idx default).y_start| ≤ 1
      · rw [flowEmitStep_some_new added hidx hmem hnear,
          if_pos ⟨hnear, fun hex => hmem ((hinv idx).mpr hex)⟩]
      · rw [flowEmitStep_some_far added hidx hnear, if_neg (fun hc => hnear hc.1)]

theorem flowAddedStep_inv (tables : List TableStructure) (added : List ℕ)
    (earlier : List TextLine) (line : TextLine)
    (hinv : ∀ idx, idx ∈ added ↔ ∃ l ∈ earlier, triggersTable tables l idx) :
    ∀ idx, idx ∈ flowAddedStep tables added line ↔
      ∃ l ∈ earlier ++ [line], triggersTable tables l idx := by
  intro idx
  have hsplit : (∃ l ∈ earlier ++ [line], triggersTable tables l idx) ↔
      ((∃ l ∈ earlier, triggersTable tables l idx) ∨ triggersTable tables line idx) := by
    constructor
    · rintro ⟨l2, hl2, ht⟩
      rcases List.mem_append.mp hl2 with h1 | h2
      · exact Or.inl ⟨l2, h1, ht⟩
      · rw [List.mem_singleton.mp h2] at ht
        exact Or.inr ht
    · rintro (⟨l2, h1, ht⟩ | ht)
      · exact ⟨l2, List.mem_append_left _ h1, ht⟩
      · exact ⟨line, List.mem_append_right _ (List.mem_singleton_self _), ht⟩
  rw [hsplit]
  rcases hidx : firstTableIdx (tableRanges tables) line.y with _ | idx0
  · rw [flowAddedStep_none added hidx, hinv idx]
    constructor
    · exact Or.inl
    · rintro (h | ht)
      · exact h
      · exact absurd ht (triggersTable_of_none hidx idx)
  · by_cases hmem : idx0 ∈ added
    · rw [flowAddedStep_some_old added hidx hmem, hinv idx]
      constructor
      · exact Or.inl
      · rintro (h | ht)
        · exact h
        · rcases (triggersTable_iff_of_some hidx idx).mp ht with ⟨rfl, -⟩
          exact (hinv _).mp hmem
    · by_cases hnear : |line.y - (tables.getD idx0 default).y_start| ≤ 1
      · rw [flowAddedStep_some_new added hidx hmem hnear]
        simp only [List.mem_cons]
        constructor
        · rintro (rfl | h)
          · exact Or.inr ((triggersTable_iff_of_some hidx idx).mpr ⟨rfl, hnear⟩)
          · exact Or.inl ((hinv idx).mp h)
        · rintro (h | ht)
          · exact Or.inr ((hinv idx).mpr h)
          · rcases (triggersTable_iff_of_some hidx idx).mp ht with ⟨rfl, -⟩
            exact Or.inl rfl
      · rw [flowAddedStep_some_far added hidx hnear, hinv idx]
        constructor
        · exact Or.inl
        · rintro (h | ht)
          · exact h
          · rcases (triggersTable_iff_of_some hidx idx).mp ht with ⟨rfl, hn⟩
            exact absurd hn hnear

theorem flowEmitList_eq_positional (tables : List TableStructure) :
    ∀ (lines : List TextLine) (added : List ℕ) (earlier : List TextLine),
      (∀ idx, idx ∈ added ↔ ∃ l ∈ earlier, triggersTable tables l idx) →
      flowEmitList tables added lines = flowPositionalAux tables earlier lines := by
  intro lines
  induction lines with
  | nil =>
      intro added earlier _
      rfl
  | cons l rest ih =>
      intro added earlier hinv
      unfold flowEmitList flowPositionalAux
      rw [flowEmitStep_eq_lineEmission tables added earlier l hinv,
        ih (flowAddedStep tables added l) (earlier ++ [l])
          (flowAddedStep_inv tables added earlier l hinv)]

/-- Claim C6 amended: the per-page stream is exactly the positional per-line
emission — each line outside every table range contributes its text element
at its own place in reading order, and a table element appears exactly at the
position of the first line whose y lies inside that table's range as the
first matching range and within 1 unit of the table's `y_start` (so table
emission is anchored to that line's position, not hoisted to the front, and a
table whose trigger condition no line satisfies is never emitted). Hence each
detected table is emitted at most once, all other in-range lines are dropped,
and the text elements are the out-of-range lines in order. -/
theorem c6_flow_emission_amended (tables : List TableStructure) (lines : List TextLine) :
    (flowPage tables lines = flowPositional tables lines) ∧
    ((flowPage tables lines).countP FlowElem.isTable =
      (List.range tables.length).countP
        (fun idx => decide (∃ l ∈ lines, triggersTable tables l idx))) ∧
    ((flowPage tables lines).filterMap FlowElem.textOf =
      lines.filter (fun l => (firstTableIdx (tableRanges tables) l.y).isNone)) ∧
    (∀ idx, (∃ l ∈ lines, triggersTable tables l idx) →
      FlowElem.table (tables.getD idx default) ∈ flowPage tables lines) := by
  rw [flowPage_eq_emitList]
  refine ⟨?_, ?_, flowEmitList_texts tables lines [], ?_⟩
  · exact flowEmitList_eq_positional tables lines [] [] (by intro idx; simp)
  · rw [flowEmitList_count tables lines []]
    refine countP_congr_decide _ _ _ ?_
    intro x _
    simp
  · intro idx hex
    exact flowEmitList_table_mem tables lines [] idx (by simp) hex

/-- Witness for the amended C6: at the concrete page the table is emitted,
and it is emitted at the header line's position (first in the stream),
followed by nothing for the in-range data line. -/
theorem c6_flow_emission_amended_witness :
    FlowElem.table (([exTable] : List TableStructure).getD 0 default) ∈
      flowPage [exTable] exLines ∧
    flowPage [exTable] exLines = flowPositional [exTable] exLines :=
  ⟨(c6_flow_emission_amended [exTable] exLines).2.2.2 0
    ⟨exHeaderLine, by simp [exLines], by
      constructor
      · norm_num [firstTableIdx, firstIdxAux, tableRanges, exTable, exHeaderLine]
      · norm_num [exTable, exHeaderLine]⟩,
    (c6_flow_emission_amended [exTable] exLines).1⟩

/-- Header line whose y (99.97) rounds up to a table `y_start` (100) strictly
above it. -/
def cexHeaderLine : TextLine :=
  ⟨[mkHeaderSpan "A" 0, mkHeaderSpan "B" 100, mkHeaderSpan "C" 205], 9997 / 100⟩

/-- Data line far below the table start. -/
def cexDataLine : TextLine := ⟨[mkDataSpan "d" 0], 150⟩

def cexLines : List TextLine := [cexHeaderLine, cexDataLine]

/-- Counterexample to C6 as stated: a table is detected, but no line of the
page triggers its emission (the header line's y lies just below the rounded
`y_start`, hence outside the table's range, and the data line is inside the
range but more than 1 unit from `y_start`), so the loop emits the table zero
times — not exactly once — and emits the header line as text. -/
theorem c6_flow_emission_counterexample :
    detect_tables cexLines = [⟨["A", "B", "C"], [["d", "", ""]], 100, 150, false⟩] ∧
    (convertPageFlow cexLines).countP FlowElem.isTable = 0 ∧
    convertPageFlow cexLines = [FlowElem.textLine cexHeaderLine] := by
  refine ⟨?_, ?_, ?_⟩ <;>
    norm_num +decide [convertPageFlow, detect_tables, detectTablesAux, sortedYsOf,
      yKeysOf, yGroupsOf, cexLines, cexHeaderLine, cexDataLine, round1, round_eq,
      is_table_header, extract_table, headerSpansOf, stableSort, stableInsert,
      groupRowsAux, buildRowsAux, processRow, extract_row_cells, nearestColIdx,
      nearestColAux, is_table_row, nonEmptyCellCount, pyStrip, stripChars, isPySpace,
      mkHeaderSpan, mkDataSpan, flowPage, flowStep, tableRanges, firstTableIdx,
      firstIdxAux, FlowElem.isTable]

/-! ## Claim C7 -/

/-- Claim C7 amended: the custom converter emits every image of a page after
all of the page's text lines (in extraction order, just before the page
break), independently of the images' y-coordinates; the y-sorted combined
element list the source builds is never consumed. -/
theorem c7_images_appended_amended (text_blocks : List TextBlock)
    (images : List ImageBlock) :
    convertPageCustom text_blocks images =
      convertPageCustom text_blocks [] ++ images.map DocElem.image ∧
    (convertPageCustom text_blocks images).filter DocElem.isImage =
      images.map DocElem.image := by
  constructor
  · unfold convertPageCustom
    simp
  · unfold convertPageCustom
    rw [List.filter_append]
    have h1 : (List.filterMap (fun line =>
        (merge_line_blocks line).map (fun merged =>
          DocElem.textBlock merged
            (classify_heading merged (avgFontSize text_blocks))))
        (group_into_lines 3 text_blocks)).filter DocElem.isImage = [] := by
      rw [List.filter_eq_nil_iff]
      intro e he
      obtain ⟨line, -, hmap⟩ := List.mem_filterMap.mp he
      obtain ⟨merged, -, hval⟩ := Option.map_eq_some'.mp hmap
      rw [← hval]
      simp [DocElem.isImage]
    have h2 : (images.map DocElem.image).filter DocElem.isImage =
        images.map DocElem.image := by
      rw [List.filter_eq_self]
      intro e he
      obtain ⟨img, -, hval⟩ := List.mem_map.mp he
      rw [← hval]
      rfl
    rw [h1, h2]
    rfl

/-- A single text block at y = 100 for the image-ordering counterexample. -/
def cexBlock : TextBlock := ⟨"t", 0, 100, 10, 10, "F", 12, 0, (0, 0, 0), 0⟩

/-- An image at y = 0, above the text block. -/
def cexImage : ImageBlock := ⟨[], 0, 0, 50, 50, 0⟩

/-- Counterexample to C7 as stated: an image at y = 0 is emitted after a text
line at y = 100, so images are not interleaved into the stream by their own
y-coordinate. -/
theorem c7_interleave_counterexample :
    convertPageCustom [cexBlock] [cexImage] =
      [DocElem.textBlock cexBlock 0, DocElem.image cexImage] ∧
    cexImage.y < cexBlock.y := by
  norm_num +decide [convertPageCustom, group_into_lines, stableSort, stableInsert,
    sweepLines, merge_line_blocks, classify_heading, avgFontSize, cexBlock, cexImage,
    List.filterMap_cons, List.filterMap_nil, Option.map]

/-! ## Claim C9 -/

/-- Claim C9: the heading classifier is a pure total function with fixed ratio
thresholds 1.5 / 1.3 / 1.15 against the page-average font size (arithmetic
mean, or 12 for a page with no blocks), and a line at exactly 1.5 times the
average is classified level 1. -/
theorem c9_heading_classifier (b : TextBlock) (avg_font_size : ℚ) :
    (classify_heading b avg_font_size = 1 ↔ b.font_size ≥ 1.5 * avg_font_size) ∧
    (classify_heading b avg_font_size = 2 ↔
      (b.font_size < 1.5 * avg_font_size ∧ b.font_size ≥ 1.3 * avg_font_size)) ∧
    (classify_heading b avg_font_size = 3 ↔
      (b.font_size < 1.5 * avg_font_size ∧ b.font_size < 1.3 * avg_font_size ∧
        b.font_size ≥ 1.15 * avg_font_size)) ∧
    (classify_heading b avg_font_size = 0 ↔
      (b.font_size < 1.5 * avg_font_size ∧ b.font_size < 1.3 * avg_font_size ∧
        b.font_size < 1.15 * avg_font_size)) ∧
    avgFontSize [] = 12 ∧
    (∀ bs : List TextBlock, bs ≠ [] →
      avgFontSize bs = ((bs.map (·.font_size)).sum) / (bs.length : ℚ)) ∧
    (b.font_size = 1.5 * avg_font_size → classify_heading b avg_font_size = 1) := by
  have mc15 : avg_font_size * 1.5 = 1.5 * avg_font_size := mul_comm ..
  have mc13 : avg_font_size * 1.3 = 1.3 * avg_font_size := mul_comm ..
  have mc115 : avg_font_size * 1.15 = 1.15 * avg_font_size := mul_comm ..
  unfold classify_heading
  rw [mc15, mc13, mc115]
  refine ⟨?_, ?_, ?_, ?_, rfl, ?_, ?_⟩
  · split_ifs with h1 h2 h3
    · exact ⟨fun _ => h1, fun _ => rfl⟩
    · exact ⟨fun h => absurd h (by decide), fun h => (h1 h).elim⟩
    · exact ⟨fun h => absurd h (by decide), fun h => (h1 h).elim⟩
    · exact ⟨fun h => absurd h (by decide), fun h => (h1 h).elim⟩
  · split_ifs with h1 h2 h3
    · exact ⟨fun h => absurd h (by decide), fun h => ((not_le.mpr h.1) h1).elim⟩
    · exact ⟨fun _ => ⟨not_le.mp h1, h2⟩, fun _ => rfl⟩
    · exact ⟨fun h => absurd h (by decide), fun h => (h2 h.2).elim⟩
    · exact ⟨fun h => absurd h (by decide), fun h => (h2 h.2).elim⟩
  · split_ifs with h1 h2 h3
    · exact ⟨fun h => absurd h (by decide), fun h => ((not_le.mpr h.1) h1).elim⟩
    · exact ⟨fun h => absurd h (by decide), fun h => ((not_le.mpr h.2.1) h2).elim⟩
    · exact ⟨fun _ => ⟨not_le.mp h1, not_le.mp h2, h3⟩, fun _ => rfl⟩
    · exact ⟨fun h => absurd h (by decide), fun h => (h3 h.2.2).elim⟩
  · split_ifs with h1 h2 h3
    · exact ⟨fun h => absurd h (by decide), fun h => ((not_le.mpr h.1) h1).elim⟩
    · exact ⟨fun h => absurd h (by decide), fun h => ((not_le.mpr h.2.1) h2).elim⟩
    · exact ⟨fun h => absurd h (by decide), fun h => ((not_le.mpr h.2.2) h3).elim⟩
    · exact ⟨fun _ => ⟨not_le.mp h1, not_le.mp h2, not_le.mp h3⟩, fun _ => rfl⟩
  · intro bs hbs
    unfold avgFontSize
    rw [if_neg (by simpa using hbs)]
  · intro heq
    rw [if_pos heq.ge]

/-- A block whose font size is exactly 1.5 times the page average of 12. -/
def c9Block : TextBlock := ⟨"h", 0, 0, 10, 10, "F", 18, 0, (0, 0, 0), 0⟩

/-- Witness for C9: font size 18 at average 12 is classified level 1. -/
theorem c9_heading_classifier_witness : classify_heading c9Block 12 = 1 :=
  (c9_heading_classifier c9Block 12).2.2.2.2.2.2 (by norm_num [c9Block])

/-! ## Claim C10 -/

theorem sweepLines_flatten (tolerance_y : ℚ) :
    ∀ (rest current : List TextBlock),
      (sweepLines tolerance_y current rest).flatten = current ++ rest := by
  intro rest
  induction rest with
  | nil => intro current; simp [sweepLines]
  | cons b bs ih =>
      intro current
      unfold sweepLines
      by_cases hc : |b.y - (current.headD default).y| ≤ tolerance_y
      · rw [if_pos hc, ih]
        simp
      · rw [if_neg hc]
        simp [List.flatten_cons, ih]

theorem sweepLines_nonempty (tolerance_y : ℚ) :
    ∀ (rest current : List TextBlock), current ≠ [] →
      ∀ l ∈ sweepLines tolerance_y current rest, l ≠ [] := by
  intro rest
  induction rest with
  | nil =>
      intro current hcur l hl
      unfold sweepLines at hl
      rw [List.mem_singleton.mp hl]
      exact hcur
  | cons b bs ih =>
      intro current hcur l hl
      unfold sweepLines at hl
      by_cases hc : |b.y - (current.headD default).y| ≤ tolerance_y
      · rw [if_pos hc] at hl
        exact ih (current ++ [b]) (by simp) l hl
      · rw [if_neg hc] at hl
        rcases List.mem_cons.mp hl with rfl | h2
        · exact hcur
        · exact ih [b] (by simp) l h2

theorem flatten_map_stableSort_perm (lt : α → α → Bool) :
    ∀ (L : List (List α)), ((L.map (stableSort lt)).flatten).Perm L.flatten := by
  intro L
  induction L with
  | nil => simp
  | cons x xs ih =>
      simp only [List.map_cons, List.flatten_cons]
      exact (stableSort_perm lt x).append ih

/-- Claim C10: `group_into_lines` partitions its input — the concatenation of
the returned lines is a permutation of the input blocks (nothing dropped or
duplicated) and every returned line is non-empty. -/
theorem head_cons_tail_of_ne_nil {α : Type _} (l : List α) (d : α) (h : l ≠ []) :
    l.headD d :: l.tail = l := by
  cases l with
  | nil => exact absurd rfl h
  | cons a as => rfl

theorem c10_group_into_lines_partition (tolerance_y : ℚ) (blocks : List TextBlock) :
    ((group_into_lines tolerance_y blocks).flatten).Perm blocks ∧
    ∀ l ∈ group_into_lines tolerance_y blocks, l ≠ [] := by
  unfold group_into_lines
  by_cases hb : blocks.isEmpty
  · rw [if_pos hb]
    rw [List.isEmpty_iff] at hb
    subst hb
    simp
  · rw [if_neg hb]
    rw [List.isEmpty_iff] at hb
    have hperm := stableSort_perm
      (fun (a b : TextBlock) => decide (a.y < b.y ∨ (a.y = b.y ∧ a.x < b.x))) blocks
    have hsne : stableSort
        (fun (a b : TextBlock) => decide (a.y < b.y ∨ (a.y = b.y ∧ a.x < b.x))) blocks ≠ [] := by
      intro hcon
      rw [hcon] at hperm
      exact hb hperm.symm.eq_nil
    constructor
    · refine (flatten_map_stableSort_perm _ _).trans ?_
      rw [sweepLines_flatten]
      rw [show ([(stableSort (fun (a b : TextBlock) =>
          decide (a.y < b.y ∨ (a.y = b.y ∧ a.x < b.x))) blocks).headD default] ++
          (stableSort (fun (a b : TextBlock) =>
            decide (a.y < b.y ∨ (a.y = b.y ∧ a.x < b.x))) blocks).tail : List TextBlock) =
          (stableSort (fun (a b : TextBlock) =>
            decide (a.y < b.y ∨ (a.y = b.y ∧ a.x < b.x))) blocks).headD default ::
          (stableSort (fun (a b : TextBlock) =>
            decide (a.y < b.y ∨ (a.y = b.y ∧ a.x < b.x))) blocks).tail from rfl]
      rw [head_cons_tail_of_ne_nil _ _ hsne]
      exact hperm
    · intro l hl
      obtain ⟨l0, hl0, hval⟩ := List.mem_map.mp hl
      have h0 : l0 ≠ [] := sweepLines_nonempty tolerance_y _ _ (by simp) l0 hl0
      rw [← hval]
      intro hcon
      apply h0
      have hp := stableSort_perm (fun (s t : TextBlock) => decide (s.x < t.x)) l0
      rw [hcon] at hp
      exact hp.symm.eq_nil

/-- Witness for C10: the singleton page partitions into one non-empty line. -/
theorem c10_group_into_lines_partition_witness :
    ((group_into_lines 3 [cexBlock]).flatten).Perm [cexBlock] ∧
      ([cexBlock] : List TextBlock) ≠ [] :=
  ⟨(c10_group_into_lines_partition 3 [cexBlock]).1,
    (c10_group_into_lines_partition 3 [cexBlock]).2 [cexBlock] (by
      rw [show group_into_lines 3 [cexBlock] = [[cexBlock]] from by
        norm_num +decide [group_into_lines, stableSort, stableInsert, sweepLines, cexBlock]]
      exact List.mem_singleton_self _)⟩
